import Mathlib

/-!
Verification of the instructor-dashboard view model and the batch-commit
utility of the `nestjs-workshop` repository.

The dashboard (src/instructor-ui/src/App.tsx) polls `GET /participants`,
projects each raw participant into a view record, and derives aggregate
statistics. The batch-commit utility is a shell script that stages and
commits all changes in a fixed list of subdirectories and then in the
containing directory.

Machine arithmetic: the only numeric computation is
`Math.round((badges.length / 20) * 100)` and
`Math.round(sum / length)`. Both divide non-negative integers, and for
non-negative arguments JavaScript `Math.round x = ⌊x + 1/2⌋`, which on a
rational `num / den` equals natural-number division
`(2 * num + den) / (2 * den)`. We model it that way.
-/

namespace Workshop

/-- Raw badge data received from the service (`BadgeData` in App.tsx). -/
structure BadgeData where
  id : String
  name : String
  earnedAt : String
deriving DecidableEq

/-- Raw participant data received from the service (`ParticipantData` in App.tsx). -/
structure ParticipantData where
  id : String
  name : String
  badges : List BadgeData
  connected : Bool
  lastSeen : String
  isOnline : Bool
deriving DecidableEq

/-- The UI-owned view projection (`Participant` in App.tsx). The optional
`email` field of the TypeScript interface is never populated by the fetch
mapping and is omitted. -/
structure Participant where
  id : String
  name : String
  progress : Nat
  lastActivity : String
  badges : List String
  isOnline : Bool
deriving DecidableEq

/-- JavaScript `Math.round (num / den)` for natural `num`, `den`:
for non-negative `x`, `Math.round x = ⌊x + 1/2⌋`, and
`⌊num/den + 1/2⌋ = (2 * num + den) / (2 * den)` in natural division. -/
def jsRound (num den : Nat) : Nat :=
  (2 * num + den) / (2 * den)

/-- The raw→view projection applied to each fetched entry
(the `formatted` mapping inside `fetchParticipants`, App.tsx lines 147–156).
`fmtTime` stands for `(s) => new Date(s).toLocaleTimeString()`, an external
locale-dependent formatter we keep abstract. -/
def formatParticipant (fmtTime : String → String) (p : ParticipantData) : Participant :=
  { id := p.id
    name := p.name
    progress := jsRound (p.badges.length * 100) 20
    lastActivity := fmtTime p.lastSeen
    badges := p.badges.map BadgeData.id
    isOnline := p.isOnline }

/-- Component state of `NestJSWorkshopDashboard`: the four `useState` cells. -/
structure DashboardState where
  query : String
  connected : Bool
  participants : List Participant
  error : Option String
deriving DecidableEq

/-- Outcome of one fetch cycle, as distinguished by the `try`/`catch` in
`fetchParticipants`:
* `ok body` — the response was OK and its JSON parsed; `body` is the
  `participants` field, `none` when absent (then `data.participants || []`
  yields `[]`);
* `httpError` — `!response.ok`, so `new Error("Failed to fetch participants")`
  is thrown and caught;
* `thrown msg` — the fetch or JSON parse threw: `some m` when the thrown
  value was an `Error` with message `m`, `none` when it was not an `Error`
  (no message to extract). -/
inductive FetchOutcome where
  | ok (body : Option (List ParticipantData))
  | httpError
  | thrown (msg : Option String)
deriving DecidableEq

/-- One cycle of `fetchParticipants` (App.tsx lines 141–165) as a state
transformer: success replaces the participants wholesale, sets
`connected := true` and clears the error; any caught failure sets
`connected := false` and stores the error message, leaving the list alone. -/
def fetchParticipants (fmtTime : String → String) (s : DashboardState)
    (o : FetchOutcome) : DashboardState :=
  match o with
  | .ok body =>
      { s with
        participants := (body.getD []).map (formatParticipant fmtTime)
        connected := true
        error := none }
  | .httpError =>
      { s with connected := false, error := some "Failed to fetch participants" }
  | .thrown msg =>
      { s with connected := false, error := some (msg.getD "Unknown error") }

/-- JavaScript `s.toLowerCase()` restricted to ASCII case mapping. -/
def lowerStr (s : String) : String :=
  ⟨s.data.map Char.toLower⟩

/-- JavaScript `hay.includes(needle)`: substring containment. -/
def jsIncludes (hay needle : String) : Bool :=
  decide (needle.data <:+: hay.data)

/-- The `filtered` memo (App.tsx lines 172–178):
participants whose lower-cased name contains the lower-cased query. -/
def filtered (s : DashboardState) : List Participant :=
  s.participants.filter (fun p => jsIncludes (lowerStr p.name) (lowerStr s.query))

/-- The `activeCount` aggregate (App.tsx line 181): participants currently online. -/
def activeCount (s : DashboardState) : Nat :=
  (s.participants.filter (fun p => p.isOnline)).length

/-- The reduce inside `avg`: `participants.reduce((s, p) => s + p.progress, 0)`. -/
def sumProgress (ps : List Participant) : Nat :=
  ps.foldl (fun acc p => acc + p.progress) 0

/-- The `avg` aggregate (App.tsx lines 184–188): rounded mean progress, 0 on an empty list. -/
def avg (s : DashboardState) : Nat :=
  if s.participants.length = 0 then 0
  else jsRound (sumProgress s.participants) s.participants.length

/-! ## Badge label formatting

The dashboard renders each badge id through two chained `replace` calls
(App.tsx lines 346–348): the first replaces every hyphen (the global
regex on the hyphen character) with a space, the second matches the
global regex "word boundary followed by a word character" and
upper-cases each matched character. -/

/-- First `replace`: every hyphen becomes a space. -/
def replaceHyphens (l : List Char) : List Char :=
  l.map (fun c => if c = '-' then ' ' else c)

/-- The regex word-character class `\w` = `[A-Za-z0-9_]`. -/
def isWordChar (c : Char) : Bool :=
  c.isAlphanum || c == '_'

/-- Second `replace`: `/\b\w/g` upper-cases each word character whose
predecessor is not a word character (or which starts the string); the
boolean argument tracks whether the previous character was a word
character. -/
def capWordStarts : Bool → List Char → List Char
  | _, [] => []
  | prevWord, c :: rest =>
      (if isWordChar c && !prevWord then c.toUpper else c) ::
        capWordStarts (isWordChar c) rest

/-- The badge label rendered for a badge id (App.tsx lines 346–348). -/
def badgeLabel (s : String) : String :=
  ⟨capWordStarts false (replaceHyphens s.data)⟩

/-- Prepend a character to the first chunk of a split. -/
def consHead (c : Char) : List (List Char) → List (List Char)
  | [] => [[c]]
  | w :: ws => (c :: w) :: ws

/-- Split a character list on hyphens (spec side: the words of a
hyphenated slug). -/
def splitHyphens : List Char → List (List Char)
  | [] => [[]]
  | c :: t =>
      if c = '-' then [] :: splitHyphens t else consHead c (splitHyphens t)

/-- Upper-case the first character of a word (spec side). -/
def capitalizeWord : List Char → List Char
  | [] => []
  | c :: rest => c.toUpper :: rest

/-- Join words with single spaces (spec side). -/
def joinWords : List (List Char) → List Char
  | [] => []
  | [w] => w
  | w :: ws => w ++ ' ' :: joinWords ws

/-- The label described by the spec's words: replace every hyphen by a
space — i.e. split the slug on hyphens — and upper-case the first letter
of each word. -/
def specBadgeLabel (s : String) : String :=
  ⟨joinWords ((splitHyphens s.data).map capitalizeWord)⟩

/-- A character of a hyphenated slug: a lower-case ASCII letter or a
hyphen. -/
def isSlugChar (c : Char) : Bool :=
  c.isLower || c == '-'

/-- Capitalize every word of a split except the first (what the
boundary-tracking pass produces when it starts mid-word). -/
def capTail : List (List Char) → List (List Char)
  | [] => []
  | w :: ws => w :: ws.map capitalizeWord

/-! ## The batch-commit utility (commit-all.sh)

The script is a loop over an external version-control tool, modelled per
directory: a directory is a repository when its version-control metadata
directory (`.git`) is present; `git add -A` makes the index match the
working tree and is a no-op outside a repository; `git diff --cached
--quiet` exits 0 exactly in a repository whose index is clean and exits
nonzero otherwise (also outside a repository); `git commit` records a
commit only in a repository with staged changes. Output collects the
script's own `echo` lines. -/

/-- State of one directory as the commit utility sees it. -/
structure RepoState where
  isRepo : Bool
  changes : Bool
  staged : Bool
  commits : List String
deriving DecidableEq

/-- Model of `git add -A`: stage everything; no effect outside a repository. -/
def gitAddAll (r : RepoState) : RepoState :=
  if r.isRepo then { r with staged := r.changes } else r

/-- Model of `git diff --cached --quiet`: succeeds (exit 0) iff run in a repository
whose index holds no staged changes. -/
def gitDiffCachedQuiet (r : RepoState) : Bool :=
  r.isRepo && !r.staged

/-- Model of `git commit -m msg`: records a commit only in a repository with
staged changes; otherwise fails and changes nothing. -/
def gitCommit (msg : String) (r : RepoState) : RepoState :=
  if r.isRepo && r.staged then
    { r with staged := false, changes := false, commits := r.commits ++ [msg] }
  else r

/-- The `Processing: $dir` echo line. -/
def procLine (dir : String) : String := "Processing: " ++ dir

/-- The `No changes to commit in $dir` echo line. -/
def noChangeLine (dir : String) : String := "No changes to commit in " ++ dir

/-- The `✓ Committed changes in $dir` echo line. -/
def committedLine (dir : String) : String := "✓ Committed changes in " ++ dir

/-- The `commit_in_dir` function (commit-all.sh): add all, then either notice that
nothing is staged or run `git commit` — and echo the ✓ line regardless of
the commit command's own exit status, which the script never checks. -/
def commit_in_dir (msg dir : String) (r : RepoState) : RepoState × List String :=
  let r1 := gitAddAll r
  if gitDiffCachedQuiet r1 then
    (r1, [procLine dir, noChangeLine dir])
  else
    (gitCommit msg r1, [procLine dir, committedLine dir])

/-- The directories the script touches: the three named subdirectories
and the containing directory itself. -/
structure CommitEnv where
  instructorService : RepoState
  instructorUi : RepoState
  participantService : RepoState
  mainRepo : RepoState
deriving DecidableEq

/-- Result of one script run: directory states, echoed lines, exit code. -/
structure ScriptResult where
  env : CommitEnv
  output : List String
  exitCode : Nat
deriving DecidableEq

/-- The usage line echoed when no commit message is supplied. -/
def usageLine : String := "Usage: ./commit-all.sh \"commit message\""

/-- The whole script: `[ -z "$1" ]` is true when the argument is absent
or empty, and then the script exits 1 after echoing usage; otherwise each
named subdirectory is processed only when its `.git` directory exists
(`[ -d "$subrepo/.git" ]`), and finally the containing directory is
processed unconditionally. -/
def runCommitAll (arg : Option String) (env : CommitEnv) : ScriptResult :=
  if arg.getD "" = "" then
    ⟨env, [usageLine], 1⟩
  else
    let msg := arg.getD ""
    let s1 :=
      if env.instructorService.isRepo then
        commit_in_dir msg "instructor-service" env.instructorService
      else (env.instructorService, [])
    let s2 :=
      if env.instructorUi.isRepo then
        commit_in_dir msg "instructor-ui" env.instructorUi
      else (env.instructorUi, [])
    let s3 :=
      if env.participantService.isRepo then
        commit_in_dir msg "participant-service" env.participantService
      else (env.participantService, [])
    let sm := commit_in_dir msg "main" env.mainRepo
    ⟨⟨s1.1, s2.1, s3.1, sm.1⟩,
     s1.2 ++ s2.2 ++ s3.2 ++ sm.2 ++ ["All repositories processed!"], 0⟩

end Workshop

namespace Workshop

/-- C1: the derived progress of a raw participant with `n` badges is
`round (n / 20 * 100)` — exactly `5 * n`, with no cap at 100
(so 5 badges give 25, 0 give 0, 20 give 100, 22 give 110). -/
theorem progress_round_no_cap (fmtTime : String → String) (p : ParticipantData) :
    ((formatParticipant fmtTime p).progress : ℤ) =
      round ((p.badges.length : ℚ) / 20 * 100) ∧
    (formatParticipant fmtTime p).progress = 5 * p.badges.length := by
  have h5 : (formatParticipant fmtTime p).progress = 5 * p.badges.length := by
    show jsRound (p.badges.length * 100) 20 = 5 * p.badges.length
    unfold jsRound
    omega
  refine ⟨?_, h5⟩
  have hq : (p.badges.length : ℚ) / 20 * 100 = ((5 * p.badges.length : ℕ) : ℚ) := by
    push_cast
    ring
  rw [h5, hq, round_natCast]

/-- C2: a successful fetch replaces the view list wholesale by the
order- and size-preserving map of the fetched raw list (empty when the
`participants` field is absent); entrywise the view record keeps the raw
id, name and online flag and its badges are the ordered raw badge ids;
and the resulting view list depends on nothing but the fetched body. -/
theorem fetch_success_replaces_view (fmtTime : String → String)
    (s : DashboardState) (body : Option (List ParticipantData)) :
    (fetchParticipants fmtTime s (.ok body)).participants =
      (body.getD []).map (formatParticipant fmtTime) ∧
    (fetchParticipants fmtTime s (.ok body)).participants.length =
      (body.getD []).length ∧
    (∀ i : Nat, (fetchParticipants fmtTime s (.ok body)).participants[i]? =
      ((body.getD [])[i]?).map (formatParticipant fmtTime)) ∧
    (∀ p : ParticipantData,
      (formatParticipant fmtTime p).id = p.id ∧
      (formatParticipant fmtTime p).name = p.name ∧
      (formatParticipant fmtTime p).isOnline = p.isOnline ∧
      (formatParticipant fmtTime p).badges = p.badges.map BadgeData.id) ∧
    (∀ s₂ : DashboardState,
      (fetchParticipants fmtTime s₂ (.ok body)).participants =
        (fetchParticipants fmtTime s (.ok body)).participants) := by
  refine ⟨rfl, by simp [fetchParticipants], ?_, ?_, fun s₂ => rfl⟩
  · intro i
    simp [fetchParticipants]
  · intro p
    exact ⟨rfl, rfl, rfl, rfl⟩

/-- C3: every failed fetch — non-OK HTTP status, or a thrown failure with
or without a message — sets connectivity to false, stores the thrown
error's message (the fixed message for a non-OK status, the generic
fallback when the failure carries none), and leaves the previously
fetched view list and the query untouched. -/
theorem fetch_failure_sets_error (fmtTime : String → String)
    (s : DashboardState) (m : String) :
    ((fetchParticipants fmtTime s .httpError).connected = false ∧
     (fetchParticipants fmtTime s .httpError).error =
        some "Failed to fetch participants" ∧
     (fetchParticipants fmtTime s .httpError).participants = s.participants ∧
     (fetchParticipants fmtTime s .httpError).query = s.query) ∧
    ((fetchParticipants fmtTime s (.thrown (some m))).connected = false ∧
     (fetchParticipants fmtTime s (.thrown (some m))).error = some m ∧
     (fetchParticipants fmtTime s (.thrown (some m))).participants =
        s.participants ∧
     (fetchParticipants fmtTime s (.thrown (some m))).query = s.query) ∧
    ((fetchParticipants fmtTime s (.thrown none)).connected = false ∧
     (fetchParticipants fmtTime s (.thrown none)).error =
        some "Unknown error" ∧
     (fetchParticipants fmtTime s (.thrown none)).participants =
        s.participants ∧
     (fetchParticipants fmtTime s (.thrown none)).query = s.query) :=
  ⟨⟨rfl, rfl, rfl, rfl⟩, ⟨rfl, rfl, rfl, rfl⟩, ⟨rfl, rfl, rfl, rfl⟩⟩

/-- C7: every successful fetch — in particular one following any prior
state, including a failed one — sets connectivity to true and clears the
stored error. -/
theorem fetch_success_clears_error (fmtTime : String → String)
    (s : DashboardState) (body : Option (List ParticipantData))
    (o : FetchOutcome) :
    ((fetchParticipants fmtTime s (.ok body)).connected = true ∧
     (fetchParticipants fmtTime s (.ok body)).error = none) ∧
    ((fetchParticipants fmtTime (fetchParticipants fmtTime s o)
        (.ok body)).connected = true ∧
     (fetchParticipants fmtTime (fetchParticipants fmtTime s o)
        (.ok body)).error = none) :=
  ⟨⟨rfl, rfl⟩, ⟨rfl, rfl⟩⟩

/-- A view list with progress values 0, 50 and 100, for concrete checks. -/
def sampleProgressState : DashboardState :=
  ⟨"", true,
   [⟨"a", "A", 0, "", [], true⟩,
    ⟨"b", "B", 50, "", [], false⟩,
    ⟨"c", "C", 100, "", [], true⟩], none⟩

/-- A dashboard state with an empty view list. -/
def emptyState : DashboardState := ⟨"", false, [], none⟩

/-- C5: the average-progress aggregate is the arithmetic mean of all
participants' progress values rounded to the nearest integer, and 0 on an
empty view list; with progress values summing to 150 over 3 participants
it is 50. -/
theorem avg_is_rounded_mean (s : DashboardState) :
    (s.participants = [] → avg s = 0) ∧
    (s.participants ≠ [] →
      (avg s : ℤ) = round ((sumProgress s.participants : ℚ) /
        (s.participants.length : ℚ))) ∧
    (sumProgress s.participants = 150 → s.participants.length = 3 →
      avg s = 50) := by
  refine ⟨?_, ?_, ?_⟩
  · intro h
    simp [avg, h]
  · intro h
    have hL : s.participants.length ≠ 0 := by
      simpa [List.length_eq_zero] using h
    have h1 : avg s = (2 * sumProgress s.participants + s.participants.length) /
        (2 * s.participants.length) := by
      simp [avg, jsRound, hL]
    have hLQ : (s.participants.length : ℚ) ≠ 0 := Nat.cast_ne_zero.mpr hL
    have hx : (sumProgress s.participants : ℚ) / (s.participants.length : ℚ) +
        1 / 2 =
        ((2 * sumProgress s.participants + s.participants.length : ℕ) : ℚ) /
          ((2 * s.participants.length : ℕ) : ℚ) := by
      push_cast
      field_simp
      ring
    rw [h1, round_eq, hx]
    have hfl : ((⌊((2 * sumProgress s.participants + s.participants.length : ℕ) : ℚ) /
          ((2 * s.participants.length : ℕ) : ℚ)⌋₊ : ℤ) =
        ⌊((2 * sumProgress s.participants + s.participants.length : ℕ) : ℚ) /
          ((2 * s.participants.length : ℕ) : ℚ)⌋) :=
      Int.natCast_floor_eq_floor (by positivity)
    rw [← hfl, Nat.floor_div_eq_div]
  · intro hS hL
    have hL0 : s.participants.length ≠ 0 := by omega
    simp [avg, jsRound, hL0, hS, hL]

/-- Witness for C5 at concrete states: the empty list averages 0, and the
list with progress values `[0, 50, 100]` averages 50 (and matches the
rounded rational mean). -/
theorem avg_is_rounded_mean_witness :
    avg emptyState = 0 ∧
    (avg sampleProgressState : ℤ) =
      round ((sumProgress sampleProgressState.participants : ℚ) /
        (sampleProgressState.participants.length : ℚ)) ∧
    avg sampleProgressState = 50 :=
  ⟨(avg_is_rounded_mean emptyState).1 rfl,
   (avg_is_rounded_mean sampleProgressState).2.1 (by decide),
   (avg_is_rounded_mean sampleProgressState).2.2 (by decide) (by decide)⟩

/-- A participant named "Ana", for concrete search-filter checks. -/
def anaP : Participant := ⟨"1", "Ana", 25, "", [], true⟩

/-- A participant named "Bob", for concrete search-filter checks. -/
def bobP : Participant := ⟨"2", "Bob", 50, "", [], true⟩

/-- A state holding Ana and Bob with live query "ana". -/
def anaBobState : DashboardState := ⟨"ana", true, [anaP, bobP], none⟩

/-- C6: the search filter keeps exactly the participants whose name
contains the query as a case-insensitive substring — a pure function of
the view list and the query; concretely, query "ana" keeps "Ana" and
drops "Bob". -/
theorem filtered_is_ci_substring_match :
    (∀ (s : DashboardState) (p : Participant),
      p ∈ filtered s ↔
        p ∈ s.participants ∧
          (lowerStr s.query).data <:+: (lowerStr p.name).data) ∧
    filtered anaBobState = [anaP] := by
  constructor
  · intro s p
    simp [filtered, jsIncludes, List.mem_filter]
  · decide

/-- C10: the active-count and average-progress aggregates read only the
view list: two states with the same participants but arbitrary different
queries (and connectivity/error cells) yield equal aggregates. -/
theorem aggregates_ignore_query (ps : List Participant)
    (q₁ q₂ : String) (c₁ c₂ : Bool) (e₁ e₂ : Option String) :
    activeCount ⟨q₁, c₁, ps, e₁⟩ = activeCount ⟨q₂, c₂, ps, e₂⟩ ∧
    avg ⟨q₁, c₁, ps, e₁⟩ = avg ⟨q₂, c₂, ps, e₂⟩ :=
  ⟨rfl, rfl⟩

/-- C9: without a commit-message argument (absent, or empty as `[ -z ]`
also accepts) the script echoes only its usage line and exits 1, leaving
every directory untouched. -/
theorem no_message_usage_exit (env : CommitEnv) :
    runCommitAll none env = ⟨env, [usageLine], 1⟩ ∧
    runCommitAll (some "") env = ⟨env, [usageLine], 1⟩ :=
  ⟨rfl, rfl⟩

/-- C4: for each directory the utility processes — each named
subdirectory, then the containing directory — changes are staged and
committed with the supplied message only when version-control metadata is
present: a clean repository is skipped with the no-changes notice and no
empty commit, a repository with changes gets exactly one commit carrying
the message, a directory without metadata is left entirely unchanged, and
a named subdirectory without metadata is never processed by the script at
all. -/
theorem commit_only_with_metadata (msg dir : String) (r : RepoState)
    (env : CommitEnv) :
    (r.isRepo = true → r.changes = false →
      commit_in_dir msg dir r =
        ({ r with staged := false }, [procLine dir, noChangeLine dir])) ∧
    (r.isRepo = true → r.changes = true →
      commit_in_dir msg dir r =
        ({ r with staged := false
                  changes := false
                  commits := r.commits ++ [msg] },
         [procLine dir, committedLine dir])) ∧
    (r.isRepo = false → (commit_in_dir msg dir r).1 = r) ∧
    (env.instructorService.isRepo = false →
      (runCommitAll (some msg) env).env.instructorService =
        env.instructorService) ∧
    (env.instructorUi.isRepo = false →
      (runCommitAll (some msg) env).env.instructorUi = env.instructorUi) ∧
    (env.participantService.isRepo = false →
      (runCommitAll (some msg) env).env.participantService =
        env.participantService) := by
  refine ⟨?_, ?_, ?_, ?_, ?_, ?_⟩
  · intro h hc
    simp [commit_in_dir, gitAddAll, gitDiffCachedQuiet, h, hc]
  · intro h hc
    simp [commit_in_dir, gitAddAll, gitDiffCachedQuiet, gitCommit, h, hc]
  · intro h
    simp [commit_in_dir, gitAddAll, gitDiffCachedQuiet, gitCommit, h]
  · intro h
    by_cases hm : msg = "" <;>
      simp [runCommitAll, hm, h]
  · intro h
    by_cases hm : msg = "" <;>
      simp [runCommitAll, hm, h]
  · intro h
    by_cases hm : msg = "" <;>
      simp [runCommitAll, hm, h]

/-- A version-controlled directory with nothing to commit. -/
def repoClean : RepoState := ⟨true, false, false, []⟩

/-- A version-controlled directory with uncommitted changes. -/
def repoDirty : RepoState := ⟨true, true, false, []⟩

/-- A directory without version-control metadata. -/
def repoNone : RepoState := ⟨false, true, false, []⟩

/-- An environment whose three subdirectories lack metadata. -/
def envNoSubrepos : CommitEnv := ⟨repoNone, repoNone, repoNone, repoClean⟩

/-- Witness for C4 at concrete directories: a clean repository is skipped
with the notice, a dirty one receives the commit, a metadata-less
directory is unchanged, and metadata-less subdirectories survive a whole
script run untouched. -/
theorem commit_only_with_metadata_witness :
    commit_in_dir "wip" "d" repoClean =
      ({ repoClean with staged := false },
       [procLine "d", noChangeLine "d"]) ∧
    commit_in_dir "wip" "d" repoDirty =
      ({ repoDirty with staged := false
                        changes := false
                        commits := repoDirty.commits ++ ["wip"] },
       [procLine "d", committedLine "d"]) ∧
    (commit_in_dir "wip" "d" repoNone).1 = repoNone ∧
    (runCommitAll (some "wip") envNoSubrepos).env.instructorService =
      repoNone ∧
    (runCommitAll (some "wip") envNoSubrepos).env.instructorUi = repoNone ∧
    (runCommitAll (some "wip") envNoSubrepos).env.participantService =
      repoNone :=
  ⟨(commit_only_with_metadata "wip" "d" repoClean envNoSubrepos).1 rfl rfl,
   (commit_only_with_metadata "wip" "d" repoDirty envNoSubrepos).2.1 rfl rfl,
   (commit_only_with_metadata "wip" "d" repoNone envNoSubrepos).2.2.1 rfl,
   (commit_only_with_metadata "wip" "d" repoNone envNoSubrepos).2.2.2.1 rfl,
   (commit_only_with_metadata "wip" "d" repoNone envNoSubrepos).2.2.2.2.1 rfl,
   (commit_only_with_metadata "wip" "d" repoNone envNoSubrepos).2.2.2.2.2 rfl⟩

/-- Splitting on hyphens never yields an empty list of words. -/
lemma splitHyphens_ne_nil (l : List Char) : splitHyphens l ≠ [] := by
  induction l with
  | nil => simp [splitHyphens]
  | cons c t ih =>
    by_cases hyph : c = '-'
    · simp [splitHyphens, hyph]
    · cases h : splitHyphens t with
      | nil => exact absurd h ih
      | cons w ws => simp [splitHyphens, hyph, h, consHead]

/-- Joining words commutes with prepending a character to the first word. -/
lemma joinWords_cons_cons (x : Char) (w : List Char)
    (rest : List (List Char)) :
    joinWords ((x :: w) :: rest) = x :: joinWords (w :: rest) := by
  cases rest with
  | nil => rfl
  | cons r rs => simp [joinWords]

/-- On slug characters, the boundary-tracking capitalization pass over
the hyphen-replaced list equals capitalizing each hyphen-separated word
and joining with spaces; started mid-word it leaves the first word's
head alone. -/
lemma capWordStarts_splitHyphens (l : List Char)
    (h : ∀ c ∈ l, isSlugChar c = true) :
    capWordStarts false (replaceHyphens l) =
      joinWords ((splitHyphens l).map capitalizeWord) ∧
    capWordStarts true (replaceHyphens l) =
      joinWords (capTail (splitHyphens l)) := by
  induction l with
  | nil => exact ⟨rfl, rfl⟩
  | cons c t ih =>
    have hc : isSlugChar c = true := h c (List.mem_cons_self c t)
    have ht : ∀ x ∈ t, isSlugChar x = true := fun x hx =>
      h x (List.mem_cons_of_mem c hx)
    obtain ⟨ih1, ih2⟩ := ih ht
    obtain ⟨w, ws, hws⟩ : ∃ w ws, splitHyphens t = w :: ws := by
      cases h' : splitHyphens t with
      | nil => exact absurd h' (splitHyphens_ne_nil t)
      | cons w ws => exact ⟨w, ws, rfl⟩
    by_cases hyph : c = '-'
    · subst hyph
      have hspace : isWordChar ' ' = false := by decide
      have hsplit : splitHyphens ('-' :: t) = [] :: splitHyphens t := by
        simp [splitHyphens]
      have hL : ∀ b : Bool, capWordStarts b (replaceHyphens ('-' :: t)) =
          ' ' :: capWordStarts false (replaceHyphens t) := by
        intro b
        simp [replaceHyphens, capWordStarts, hspace]
      have hR : joinWords ((splitHyphens ('-' :: t)).map capitalizeWord) =
          ' ' :: joinWords ((splitHyphens t).map capitalizeWord) := by
        rw [hsplit, hws]
        simp [capitalizeWord, joinWords]
      have hR2 : joinWords (capTail (splitHyphens ('-' :: t))) =
          ' ' :: joinWords ((splitHyphens t).map capitalizeWord) := by
        rw [hsplit, hws]
        simp [capTail, capitalizeWord, joinWords]
      refine ⟨?_, ?_⟩
      · rw [hL false, hR, ih1]
      · rw [hL true, hR2, ih1]
    · have hlow : c.isLower = true := by
        have hne : (c == '-') = false := by simp [hyph]
        simpa [isSlugChar, hne] using hc
      have hw : isWordChar c = true := by
        simp [isWordChar, Char.isAlphanum, Char.isAlpha, hlow]
      have hrep : replaceHyphens (c :: t) = c :: replaceHyphens t := by
        simp [replaceHyphens, hyph]
      have hsplit : splitHyphens (c :: t) = (c :: w) :: ws := by
        simp [splitHyphens, hyph, hws, consHead]
      have hihR : capWordStarts true (replaceHyphens t) =
          joinWords (w :: ws.map capitalizeWord) := by
        rw [ih2, hws]
        rfl
      refine ⟨?_, ?_⟩
      · rw [hrep, hsplit, List.map_cons]
        have hcap : capitalizeWord (c :: w) = c.toUpper :: w := rfl
        rw [hcap, joinWords_cons_cons, ← hihR]
        simp [capWordStarts, hw]
      · rw [hrep, hsplit]
        have hct : capTail ((c :: w) :: ws) =
            (c :: w) :: ws.map capitalizeWord := rfl
        rw [hct, joinWords_cons_cons, ← hihR]
        simp [capWordStarts, hw]

/-- C8: on every hyphenated slug — a string of lower-case letters and
hyphens — the rendered badge label is exactly the label obtained by
replacing every hyphen with a space and upper-casing the first letter of
each word, a total pure string transform. -/
theorem badge_label_formats_slug (s : String)
    (h : ∀ c ∈ s.data, isSlugChar c = true) :
    badgeLabel s = specBadgeLabel s :=
  congrArg String.mk (capWordStarts_splitHyphens s.data h).1

/-- Witness for C8 at the slug "module-master": the rendered label
matches the spec-side formatter, and both read "Module Master". -/
theorem badge_label_formats_slug_witness :
    badgeLabel "module-master" = specBadgeLabel "module-master" ∧
    badgeLabel "module-master" = "Module Master" :=
  ⟨badge_label_formats_slug "module-master" (by decide), by decide⟩

end Workshop
